import Mathlib

/-!
Shallow embedding of `src/extensions/ql-vscode/src/run-remote-query.ts`.

The module is sequential glue over three external collaborators (the editor
window, a local CodeQL CLI server, and a remote HTTP API).  We embed it as
pure functions over an explicit environment `Env` that fixes the responses of
every collaborator (file-system contents, CLI answers, the quick-pick
choice, the HTTP request outcome).  Each function returns its result together
with the ordered trace of observable effects (`Event`), so that claims about
"what is read / shown / sent, and in what order" become statements about the
trace.

JavaScript strings are modelled as Lean `String`s; the JavaScript operations
used by the source (`endsWith`, `substring(0, n)`, the truthiness test of
`||` and `!`) are embedded explicitly below on the underlying character
lists, mirroring their code-unit semantics.
-/

/-- A VS Code `Uri`; the source only ever reads its `fsPath`. -/
structure Uri where
  fsPath : String
deriving Repr, DecidableEq

/-- The `Config` interface parsed from the `.repositories` YAML file. -/
structure Config where
  repositories : List String
  ref : Option String := none
  language : Option String := none
deriving Repr, DecidableEq

/-- Constant `OWNER` from the source (the test controller repository owner). -/
def OWNER : String := "dsp-testing"

/-- Constant `REPO` from the source. -/
def REPO : String := "qc-controller"

/-- The fixed endpoint string passed to `octokit.request`. -/
def requestEndpoint : String := "POST /repos/:owner/:repo/code-scanning/codeql/queries"

/-- JavaScript `s.endsWith(suffix)` on code units. -/
def jsEndsWith (s suffix : String) : Bool :=
  suffix.data.isSuffixOf s.data

/-- JavaScript `s.substring(0, n)` on code units. -/
def jsSubstringTo (s : String) (n : Nat) : String :=
  String.mk (s.data.take n)

/-- JavaScript truthiness of a `string | undefined` value: `undefined` and
the empty string are falsy. -/
def jsFalsyStr : Option String → Bool
  | none => true
  | some s => s = ""

/-- JavaScript `v || d` for a `string | undefined` value `v`. -/
def jsOrStr (v : Option String) (d : String) : String :=
  match v with
  | none => d
  | some s => if s = "" then d else s

/-- Template-literal rendering of a `string | undefined` value. -/
def showOptString : Option String → String
  | none => "undefined"
  | some s => s

/-- One observable effect of the module, in the order it happens. -/
inductive Event where
  | getOctokit : Event
  | getToken : Event
  | readFile (path : String) : Event
  | pathExists (path : String) : Event
  | logMsg (msg : String) : Event
  | errorMessage (msg : String) : Event
  | infoMessage (msg : String) : Event
  | resolveQueryByLanguage (path : String) : Event
  | resolveLanguages : Event
  | quickPick (choices : List String) : Event
  | httpRequest (endpointStr ownerStr repoStr : String)
      (ref language : String) (repositories : List String)
      (query token : String) : Event
deriving Repr, DecidableEq

/-- The fixed responses of the external collaborators during one invocation:
the editor window, the CLI server, the credentials, the file system, the
YAML parser and the HTTP transport. -/
structure Env where
  activeEditorUri : Option Uri
  resolveQueryByLanguage : String → Except String (List String)
  resolveLanguages : List String
  quickPick : List String → Option String
  token : String
  files : String → Option String
  parseYaml : String → Config
  requestResult : Except String Unit

/-- How an invocation of `runRemoteQuery` finishes: a normal return, or an
uncaught rejection (only possible when reading the query file fails). -/
inductive RunResult where
  | normal : RunResult
  | thrown (msg : String) : RunResult
deriving Repr, DecidableEq

/-- Embeds the sibling path computation: substring of queryFile up to its
length minus the length of the .ql suffix, with .repositories appended. -/
def reposFilePath (queryFile : String) : String :=
  jsSubstringTo queryFile (queryFile.data.length - ".ql".data.length) ++ ".repositories"

/-- The error message shown when the `.repositories` file is missing. -/
def missingFileMsg (repositoriesFile queryFile : String) : String :=
  "Missing file: \x27" ++ repositoriesFile ++
    "\x27 to specify the repositories to run against. This file must be a sibling of " ++
    queryFile ++ "."

/-- The information message shown after a successful request. -/
def successMsg : String :=
  "Successfully scheduled runs. [Click here to see the progress](https://github.com/" ++
    OWNER ++ "/" ++ REPO ++ "/actions)."

/-- The error message shown when the quick pick is cancelled. -/
def cancelMsg : String := "Language not found. Language must be specified manually."

/-- The log line of the autodetection failure path. -/
def autodetectFailMsg : String := "Could not autodetect query language. Select language manually."

/-- The log line of the autodetection success path. -/
def detectedMsg (language : Option String) : String :=
  "Detected query language: " ++ showOptString language

/-- The trailing events of the quick-pick path: an error message exactly when
the pick produced no (truthy) language, i.e. the user cancelled. -/
def cancelEvents (language : Option String) : List Event :=
  if jsFalsyStr language then [Event.errorMessage cancelMsg] else []

/-- Embeds `findLanguage` from the source: try autodetection through the CLI server
on the given uri (or the uri of the active editor); on failure or when no
uri is available, fall back to a quick pick over the languages of the CLI, showing
an error message when the pick is cancelled. Returns the language (if any)
and the effect trace. -/
def findLanguage (env : Env) (queryUri : Option Uri) : Option String × List Event :=
  match queryUri.or env.activeEditorUri with
  | some u =>
    match env.resolveQueryByLanguage u.fsPath with
    | Except.ok keys =>
        (keys.head?,
         [Event.resolveQueryByLanguage u.fsPath, Event.logMsg (detectedMsg keys.head?)])
    | Except.error _ =>
        let language := env.quickPick env.resolveLanguages
        (language,
         [Event.resolveQueryByLanguage u.fsPath, Event.logMsg autodetectFailMsg,
          Event.resolveLanguages, Event.quickPick env.resolveLanguages] ++
           cancelEvents language)
  | none =>
    let language := env.quickPick env.resolveLanguages
    (language,
     [Event.resolveLanguages, Event.quickPick env.resolveLanguages] ++
       cancelEvents language)

/-- Embeds the expression resolving the language (supplied configuration
language, with findLanguage as fallback): the supplied
language short-circuits when truthy, otherwise `findLanguage` runs. -/
def langResolution (env : Env) (u : Uri) (cfgLang : Option String) :
    Option String × List Event :=
  match cfgLang with
  | some l => if l = "" then findLanguage env (some u) else (some l, [])
  | none => findLanguage env (some u)

/-- Embeds `runRemoteQuery` from the source, as a function of the environment and
the optional uri, returning how the invocation finishes and its effect
trace. -/
def runRemoteQuery (env : Env) (uri : Option Uri) : RunResult × List Event :=
  match uri with
  | none => (RunResult.normal, [])
  | some u =>
    if jsEndsWith u.fsPath ".ql" then
      let queryFile := u.fsPath
      match env.files queryFile with
      | none =>
          (RunResult.thrown ("ENOENT: no such file or directory, open " ++ queryFile),
           [Event.getOctokit, Event.getToken, Event.readFile queryFile])
      | some query =>
          let repositoriesFile := reposFilePath queryFile
          match env.files repositoriesFile with
          | none =>
              (RunResult.normal,
               [Event.getOctokit, Event.getToken, Event.readFile queryFile,
                Event.pathExists repositoriesFile,
                Event.errorMessage (missingFileMsg repositoriesFile queryFile)])
          | some content =>
              let config := env.parseYaml content
              let ref := jsOrStr config.ref "main"
              let fl := langResolution env u config.language
              let baseEvents :=
                [Event.getOctokit, Event.getToken, Event.readFile queryFile,
                 Event.pathExists repositoriesFile, Event.readFile repositoriesFile] ++ fl.2
              if jsFalsyStr fl.1 then
                (RunResult.normal, baseEvents)
              else
                match env.requestResult with
                | Except.ok _ =>
                    (RunResult.normal,
                     baseEvents ++
                       [Event.httpRequest requestEndpoint OWNER REPO
                          ref (fl.1.getD "") config.repositories query env.token,
                        Event.infoMessage successMsg])
                | Except.error e =>
                    (RunResult.normal,
                     baseEvents ++
                       [Event.httpRequest requestEndpoint OWNER REPO
                          ref (fl.1.getD "") config.repositories query env.token,
                        Event.errorMessage e])
    else
      (RunResult.normal, [])

/-- Whether an event is the HTTP POST. -/
def isPost : Event → Bool
  | Event.httpRequest _ _ _ _ _ _ _ _ => true
  | _ => false

/-- Whether an event is a user-facing notification (`showAndLog…Message`). -/
def isUserMessage : Event → Bool
  | Event.errorMessage _ => true
  | Event.infoMessage _ => true
  | _ => false

/-- Whether an event is a file read. -/
def isReadFile : Event → Bool
  | Event.readFile _ => true
  | _ => false

/-- Whether an event is a file-existence check. -/
def isPathExists : Event → Bool
  | Event.pathExists _ => true
  | _ => false

/-- Whether an event is an information notification. -/
def isInfoMessage : Event → Bool
  | Event.infoMessage _ => true
  | _ => false

/-- Whether an event is a call into the CLI server or the language prompt. -/
def isLangResolutionEvent : Event → Bool
  | Event.resolveQueryByLanguage _ => true
  | Event.resolveLanguages => true
  | Event.quickPick _ => true
  | _ => false

/-- The `(endpoint, owner, repo)` target of a POST event. -/
def postTarget : Event → Option (String × String × String)
  | Event.httpRequest ep ow rp _ _ _ _ _ => some (ep, ow, rp)
  | _ => none

/-- The `ref` field of the payload of a POST event. -/
def postRef : Event → Option String
  | Event.httpRequest _ _ _ r _ _ _ _ => some r
  | _ => none

/-- The `language` field of the payload of a POST event. -/
def postLang : Event → Option String
  | Event.httpRequest _ _ _ _ l _ _ _ => some l
  | _ => none

/-- The `repositories` field of the payload of a POST event. -/
def postRepos : Event → Option (List String)
  | Event.httpRequest _ _ _ _ _ rs _ _ => some rs
  | _ => none

/-- The `query` field of the payload of a POST event. -/
def postQuery : Event → Option String
  | Event.httpRequest _ _ _ _ _ _ q _ => some q
  | _ => none

/-- The `token` field of the payload of a POST event. -/
def postToken : Event → Option String
  | Event.httpRequest _ _ _ _ _ _ _ t => some t
  | _ => none

/-- The five effects every invocation that reaches the configuration-parsing
stage performs first, in order. -/
def baseTrace (u : Uri) : List Event :=
  [Event.getOctokit, Event.getToken, Event.readFile u.fsPath,
   Event.pathExists (reposFilePath u.fsPath), Event.readFile (reposFilePath u.fsPath)]

/-- A file system holding `q.ql` and its sibling `q.repositories`. -/
def filesA : String → Option String := fun p =>
  if p = "q.ql" then some "select 1" else
  if p = "q.repositories" then some "cfg" else none

/-- Environment of a fully specified happy-path run: configuration supplies a
non-empty ref and language, and the request succeeds. -/
def envA : Env where
  activeEditorUri := none
  resolveQueryByLanguage := fun _ => Except.error "autodetect failed"
  resolveLanguages := ["go", "java"]
  quickPick := fun _ => some "go"
  token := "tok"
  files := filesA
  parseYaml := fun _ => { repositories := ["a/b"], ref := some "dev", language := some "go" }
  requestResult := Except.ok ()

/-- Like `envA` but the configuration carries an empty-string `ref`. -/
def envB : Env where
  activeEditorUri := none
  resolveQueryByLanguage := fun _ => Except.error "autodetect failed"
  resolveLanguages := ["go", "java"]
  quickPick := fun _ => none
  token := "tok"
  files := filesA
  parseYaml := fun _ => { repositories := ["a/b"], ref := some "", language := some "go" }
  requestResult := Except.ok ()

/-- Like `envA` but the configuration carries an empty-string `language`,
and CLI autodetection succeeds with language `go`. -/
def envC : Env where
  activeEditorUri := none
  resolveQueryByLanguage := fun _ => Except.ok ["go"]
  resolveLanguages := ["go", "java"]
  quickPick := fun _ => none
  token := "tok"
  files := filesA
  parseYaml := fun _ => { repositories := ["a/b"], ref := none, language := some "" }
  requestResult := Except.ok ()

/-- Environment where only the query file exists (no `.repositories` sibling). -/
def envD : Env where
  activeEditorUri := none
  resolveQueryByLanguage := fun _ => Except.ok ["go"]
  resolveLanguages := ["go", "java"]
  quickPick := fun _ => some "go"
  token := "tok"
  files := fun p => if p = "q.ql" then some "select 1" else none
  parseYaml := fun _ => { repositories := ["a/b"] }
  requestResult := Except.ok ()

/-- Environment where the configuration omits the language and CLI
autodetection succeeds with an empty `byLanguage` map. -/
def envE : Env where
  activeEditorUri := none
  resolveQueryByLanguage := fun _ => Except.ok []
  resolveLanguages := ["go", "java"]
  quickPick := fun _ => some "go"
  token := "tok"
  files := filesA
  parseYaml := fun _ => { repositories := ["a/b"] }
  requestResult := Except.ok ()

/-- Like `envA` but the HTTP request fails. -/
def envF : Env where
  activeEditorUri := none
  resolveQueryByLanguage := fun _ => Except.error "autodetect failed"
  resolveLanguages := ["go", "java"]
  quickPick := fun _ => some "go"
  token := "tok"
  files := filesA
  parseYaml := fun _ => { repositories := ["a/b"], ref := some "dev", language := some "go" }
  requestResult := Except.error "boom"

/-- Environment used to exercise `findLanguage` branches: autodetection
succeeds with language `cpp`. -/
def envG : Env where
  activeEditorUri := none
  resolveQueryByLanguage := fun _ => Except.ok ["cpp"]
  resolveLanguages := ["go", "java"]
  quickPick := fun _ => none
  token := "tok"
  files := filesA
  parseYaml := fun _ => { repositories := ["a/b"] }
  requestResult := Except.ok ()

/-! ### Helper lemmas about `findLanguage` and `langResolution` traces -/

theorem cancelEvents_mem {l : Option String} :
    ∀ e ∈ cancelEvents l, e = Event.errorMessage cancelMsg := by
  intro e he
  unfold cancelEvents at he
  split at he
  · simpa using he
  · simp at he

theorem cancelEvents_of_truthy {l : Option String} (h : jsFalsyStr l = false) :
    cancelEvents l = [] := by
  unfold cancelEvents
  simp [h]

theorem cancelEvents_length (l : Option String) : (cancelEvents l).length ≤ 1 := by
  unfold cancelEvents
  split <;> simp

theorem findLanguage_of_ok (env : Env) (q : Option Uri) (u : Uri) (keys : List String)
    (hu : q.or env.activeEditorUri = some u)
    (hres : env.resolveQueryByLanguage u.fsPath = Except.ok keys) :
    findLanguage env q =
      (keys.head?,
       [Event.resolveQueryByLanguage u.fsPath, Event.logMsg (detectedMsg keys.head?)]) := by
  simp [findLanguage, hu, hres]

theorem findLanguage_of_err (env : Env) (q : Option Uri) (u : Uri) (msg : String)
    (hu : q.or env.activeEditorUri = some u)
    (hres : env.resolveQueryByLanguage u.fsPath = Except.error msg) :
    findLanguage env q =
      (env.quickPick env.resolveLanguages,
       [Event.resolveQueryByLanguage u.fsPath, Event.logMsg autodetectFailMsg,
        Event.resolveLanguages, Event.quickPick env.resolveLanguages] ++
         cancelEvents (env.quickPick env.resolveLanguages)) := by
  simp [findLanguage, hu, hres]

theorem findLanguage_of_none (env : Env) (q : Option Uri)
    (hu : q.or env.activeEditorUri = none) :
    findLanguage env q =
      (env.quickPick env.resolveLanguages,
       [Event.resolveLanguages, Event.quickPick env.resolveLanguages] ++
         cancelEvents (env.quickPick env.resolveLanguages)) := by
  simp [findLanguage, hu]

theorem findLanguage_events (env : Env) (q : Option Uri) :
    ∀ e ∈ (findLanguage env q).2,
      isPost e = false ∧ isReadFile e = false ∧ isInfoMessage e = false ∧
        isPathExists e = false := by
  intro e he
  cases hu : q.or env.activeEditorUri with
  | none =>
    rw [findLanguage_of_none env q hu] at he
    rcases List.mem_append.mp he with h | h
    · simp at h
      rcases h with rfl | rfl <;> simp [isPost, isReadFile, isInfoMessage, isPathExists]
    · have := cancelEvents_mem e h
      subst this
      simp [isPost, isReadFile, isInfoMessage, isPathExists]
  | some u =>
    cases hres : env.resolveQueryByLanguage u.fsPath with
    | ok keys =>
      rw [findLanguage_of_ok env q u keys hu hres] at he
      simp at he
      rcases he with rfl | rfl <;> simp [isPost, isReadFile, isInfoMessage, isPathExists]
    | error msg =>
      rw [findLanguage_of_err env q u msg hu hres] at he
      rcases List.mem_append.mp he with h | h
      · simp at h
        rcases h with rfl | rfl | rfl | rfl <;>
          simp [isPost, isReadFile, isInfoMessage, isPathExists]
      · have := cancelEvents_mem e h
        subst this
        simp [isPost, isReadFile, isInfoMessage, isPathExists]

theorem findLanguage_filter_post (env : Env) (q : Option Uri) :
    (findLanguage env q).2.filter isPost = [] := by
  rw [List.filter_eq_nil_iff]
  intro e he
  simp [(findLanguage_events env q e he).1]

theorem findLanguage_filter_message_le (env : Env) (q : Option Uri) :
    ((findLanguage env q).2.filter isUserMessage).length ≤ 1 := by
  cases hu : q.or env.activeEditorUri with
  | none =>
    rw [findLanguage_of_none env q hu]
    rw [List.filter_append]
    simp only [List.length_append]
    have h1 : ([Event.resolveLanguages,
        Event.quickPick env.resolveLanguages].filter isUserMessage).length = 0 := by
      simp [isUserMessage]
    rw [h1]
    calc 0 + ((cancelEvents (env.quickPick env.resolveLanguages)).filter isUserMessage).length
        ≤ (cancelEvents (env.quickPick env.resolveLanguages)).length := by
          simpa using List.length_filter_le isUserMessage _
      _ ≤ 1 := cancelEvents_length _
  | some u =>
    cases hres : env.resolveQueryByLanguage u.fsPath with
    | ok keys =>
      rw [findLanguage_of_ok env q u keys hu hres]
      simp [isUserMessage]
    | error msg =>
      rw [findLanguage_of_err env q u msg hu hres]
      rw [List.filter_append]
      simp only [List.length_append]
      have h1 : ([Event.resolveQueryByLanguage u.fsPath, Event.logMsg autodetectFailMsg,
          Event.resolveLanguages,
          Event.quickPick env.resolveLanguages].filter isUserMessage).length = 0 := by
        simp [isUserMessage]
      rw [h1]
      calc 0 + ((cancelEvents (env.quickPick env.resolveLanguages)).filter isUserMessage).length
          ≤ (cancelEvents (env.quickPick env.resolveLanguages)).length := by
            simpa using List.length_filter_le isUserMessage _
        _ ≤ 1 := cancelEvents_length _

theorem findLanguage_truthy_no_message (env : Env) (q : Option Uri)
    (h : jsFalsyStr (findLanguage env q).1 = false) :
    (findLanguage env q).2.filter isUserMessage = [] := by
  cases hu : q.or env.activeEditorUri with
  | none =>
    rw [findLanguage_of_none env q hu] at h ⊢
    rw [List.filter_append, cancelEvents_of_truthy h]
    simp [isUserMessage]
  | some u =>
    cases hres : env.resolveQueryByLanguage u.fsPath with
    | ok keys =>
      rw [findLanguage_of_ok env q u keys hu hres]
      simp [isUserMessage]
    | error msg =>
      rw [findLanguage_of_err env q u msg hu hres] at h ⊢
      rw [List.filter_append, cancelEvents_of_truthy h]
      simp [isUserMessage]

theorem langResolution_cases (env : Env) (u : Uri) (cl : Option String) :
    (jsFalsyStr cl = true ∧ langResolution env u cl = findLanguage env (some u)) ∨
    (∃ l, cl = some l ∧ l ≠ "" ∧ langResolution env u cl = (some l, [])) := by
  unfold langResolution
  cases cl with
  | none => exact Or.inl ⟨rfl, rfl⟩
  | some l =>
    by_cases hl : l = ""
    · subst hl
      exact Or.inl ⟨by simp [jsFalsyStr], by simp⟩
    · exact Or.inr ⟨l, rfl, hl, by simp [hl]⟩

theorem langResolution_events (env : Env) (u : Uri) (cl : Option String) :
    ∀ e ∈ (langResolution env u cl).2,
      isPost e = false ∧ isReadFile e = false ∧ isInfoMessage e = false ∧
        isPathExists e = false := by
  intro e he
  rcases langResolution_cases env u cl with ⟨_, heq⟩ | ⟨l, _, _, heq⟩
  · rw [heq] at he
    exact findLanguage_events env (some u) e he
  · rw [heq] at he
    simp at he

theorem langResolution_filter_post (env : Env) (u : Uri) (cl : Option String) :
    (langResolution env u cl).2.filter isPost = [] := by
  rw [List.filter_eq_nil_iff]
  intro e he
  simp [(langResolution_events env u cl e he).1]

theorem langResolution_filter_message_le (env : Env) (u : Uri) (cl : Option String) :
    ((langResolution env u cl).2.filter isUserMessage).length ≤ 1 := by
  rcases langResolution_cases env u cl with ⟨_, heq⟩ | ⟨l, _, _, heq⟩
  · rw [heq]
    exact findLanguage_filter_message_le env (some u)
  · rw [heq]
    simp

theorem langResolution_truthy_no_message (env : Env) (u : Uri) (cl : Option String)
    (h : jsFalsyStr (langResolution env u cl).1 = false) :
    (langResolution env u cl).2.filter isUserMessage = [] := by
  rcases langResolution_cases env u cl with ⟨_, heq⟩ | ⟨l, _, _, heq⟩
  · rw [heq] at h ⊢
    exact findLanguage_truthy_no_message env (some u) h
  · rw [heq]
    simp

/-- If a list decomposes as prefix, one marked element, and a marker-free
tail, then any decomposition around a marked element is that one. -/
theorem split_unique {α : Type} {P : α → Bool} :
    ∀ (L : List α) (p : α) (tail tr1 tr2 : List α) (e : α),
      (∀ x ∈ L, P x = false) → (∀ x ∈ tail, P x = false) →
      L ++ p :: tail = tr1 ++ e :: tr2 → P e = true →
      tr1 = L ∧ e = p ∧ tr2 = tail := by
  intro L
  induction L with
  | nil =>
    intro p tail tr1 tr2 e _ htail heq he
    cases tr1 with
    | nil =>
      simp at heq
      exact ⟨rfl, heq.1.symm, heq.2.symm⟩
    | cons a tr1x =>
      exfalso
      simp at heq
      have hmem : e ∈ tail := by
        rw [heq.2]
        simp
      rw [htail e hmem] at he
      exact Bool.false_ne_true he
  | cons a Lx ih =>
    intro p tail tr1 tr2 e hL htail heq he
    cases tr1 with
    | nil =>
      exfalso
      simp at heq
      rw [← heq.1] at he
      rw [hL a (by simp)] at he
      exact Bool.false_ne_true he
    | cons b tr1x =>
      simp at heq
      obtain ⟨rfl, heqx⟩ := heq
      obtain ⟨h1, h2, h3⟩ :=
        ih p tail tr1x tr2 e (fun x hx => hL x (by simp [hx])) htail heqx he
      exact ⟨by rw [h1], h2, h3⟩

/-- Case analysis on one invocation of `runRemoteQuery`: guard-rejected runs,
a failed query-file read, a missing sibling file, an aborted language
resolution, and the request stage (succeeding or failing). -/
theorem runRemoteQuery_shape (env : Env) (uri : Option Uri) :
    ((uri = none ∨ ∃ u, uri = some u ∧ jsEndsWith u.fsPath ".ql" = false) ∧
      runRemoteQuery env uri = (RunResult.normal, []))
  ∨ (∃ u, uri = some u ∧ jsEndsWith u.fsPath ".ql" = true ∧ env.files u.fsPath = none ∧
      runRemoteQuery env uri =
        (RunResult.thrown ("ENOENT: no such file or directory, open " ++ u.fsPath),
         [Event.getOctokit, Event.getToken, Event.readFile u.fsPath]))
  ∨ (∃ u q, uri = some u ∧ jsEndsWith u.fsPath ".ql" = true ∧
      env.files u.fsPath = some q ∧ env.files (reposFilePath u.fsPath) = none ∧
      runRemoteQuery env uri =
        (RunResult.normal,
         [Event.getOctokit, Event.getToken, Event.readFile u.fsPath,
          Event.pathExists (reposFilePath u.fsPath),
          Event.errorMessage (missingFileMsg (reposFilePath u.fsPath) u.fsPath)]))
  ∨ (∃ u q c, uri = some u ∧ jsEndsWith u.fsPath ".ql" = true ∧
      env.files u.fsPath = some q ∧ env.files (reposFilePath u.fsPath) = some c ∧
      jsFalsyStr (langResolution env u (env.parseYaml c).language).1 = true ∧
      runRemoteQuery env uri =
        (RunResult.normal,
         baseTrace u ++ (langResolution env u (env.parseYaml c).language).2))
  ∨ (∃ u q c l, uri = some u ∧ jsEndsWith u.fsPath ".ql" = true ∧
      env.files u.fsPath = some q ∧ env.files (reposFilePath u.fsPath) = some c ∧
      (langResolution env u (env.parseYaml c).language).1 = some l ∧ l ≠ "" ∧
      ((env.requestResult = Except.ok () ∧
        runRemoteQuery env uri =
          (RunResult.normal,
           (baseTrace u ++ (langResolution env u (env.parseYaml c).language).2) ++
             [Event.httpRequest requestEndpoint OWNER REPO
                (jsOrStr (env.parseYaml c).ref "main") l
                (env.parseYaml c).repositories q env.token,
              Event.infoMessage successMsg])) ∨
       (∃ msg, env.requestResult = Except.error msg ∧
        runRemoteQuery env uri =
          (RunResult.normal,
           (baseTrace u ++ (langResolution env u (env.parseYaml c).language).2) ++
             [Event.httpRequest requestEndpoint OWNER REPO
                (jsOrStr (env.parseYaml c).ref "main") l
                (env.parseYaml c).repositories q env.token,
              Event.errorMessage msg])))) := by
  rcases uri with _ | u
  · exact Or.inl ⟨Or.inl rfl, rfl⟩
  · cases hql : jsEndsWith u.fsPath ".ql" with
    | false =>
      exact Or.inl ⟨Or.inr ⟨u, rfl, hql⟩, by simp [runRemoteQuery, hql]⟩
    | true =>
      cases hq : env.files u.fsPath with
      | none =>
        exact Or.inr (Or.inl ⟨u, rfl, hql, hq, by simp [runRemoteQuery, hql, hq]⟩)
      | some q =>
        cases hr : env.files (reposFilePath u.fsPath) with
        | none =>
          exact Or.inr (Or.inr (Or.inl
            ⟨u, q, rfl, hql, hq, hr, by simp [runRemoteQuery, hql, hq, hr]⟩))
        | some c =>
          cases hf : jsFalsyStr (langResolution env u (env.parseYaml c).language).1 with
          | true =>
            refine Or.inr (Or.inr (Or.inr (Or.inl ⟨u, q, c, rfl, hql, hq, hr, hf, ?_⟩)))
            simp [runRemoteQuery, hql, hq, hr, hf, baseTrace]
          | false =>
            obtain ⟨l, hl⟩ :
                ∃ l, (langResolution env u (env.parseYaml c).language).1 = some l := by
              cases hx : (langResolution env u (env.parseYaml c).language).1 with
              | none =>
                rw [hx] at hf
                simp [jsFalsyStr] at hf
              | some l => exact ⟨l, rfl⟩
            have hlne : l ≠ "" := by
              intro hcontra
              subst hcontra
              rw [hl] at hf
              simp [jsFalsyStr] at hf
            cases hreq : env.requestResult with
            | ok v =>
              cases v
              refine Or.inr (Or.inr (Or.inr (Or.inr
                ⟨u, q, c, l, rfl, hql, hq, hr, hl, hlne, Or.inl ⟨rfl, ?_⟩⟩)))
              simp [runRemoteQuery, hql, hq, hr, hf, hreq, hl, hlne, jsFalsyStr, baseTrace]
            | error msg =>
              refine Or.inr (Or.inr (Or.inr (Or.inr
                ⟨u, q, c, l, rfl, hql, hq, hr, hl, hlne, Or.inr ⟨msg, rfl, ?_⟩⟩)))
              simp [runRemoteQuery, hql, hq, hr, hf, hreq, hl, hlne, jsFalsyStr, baseTrace]

theorem baseTrace_events (u : Uri) :
    ∀ e ∈ baseTrace u, isPost e = false ∧ isUserMessage e = false ∧
      isLangResolutionEvent e = false := by
  intro e he
  simp [baseTrace] at he
  rcases he with rfl | rfl | rfl | rfl | rfl <;>
    simp [isPost, isUserMessage, isLangResolutionEvent]

theorem baseTrace_filter_post (u : Uri) : (baseTrace u).filter isPost = [] := by
  simp [baseTrace, isPost]

theorem baseTrace_filter_message (u : Uri) : (baseTrace u).filter isUserMessage = [] := by
  simp [baseTrace, isUserMessage]

/-- Claim C1: every invocation of `runRemoteQuery` issues at most one HTTP
POST, and whenever the request stage is reached (a POST occurs in the trace)
it is issued exactly once; every POST targets the fixed endpoint
`POST /repos/:owner/:repo/code-scanning/codeql/queries` with owner
`dsp-testing` and repo `qc-controller`.  The statement quantifies over every
environment and uri, so the target never depends on the input uri, the
configuration file, or the credentials; the POST event carries exactly the
payload fields ref, language, repositories, query, and token. -/
theorem C1_runRemoteQuery_single_fixed_target (env : Env) (uri : Option Uri) :
    (((runRemoteQuery env uri).2.filter isPost).length ≤ 1) ∧
    (∀ e, e ∈ (runRemoteQuery env uri).2 → isPost e = true →
      postTarget e = some (requestEndpoint, "dsp-testing", "qc-controller") ∧
      ((runRemoteQuery env uri).2.filter isPost).length = 1) := by
  rcases runRemoteQuery_shape env uri with
      ⟨_, heq⟩ | ⟨u, _, _, _, heq⟩ | ⟨u, q, _, _, _, _, heq⟩ |
      ⟨u, q, c, _, _, _, _, hf, heq⟩ |
      ⟨u, q, c, l, _, _, _, _, hl, hlne, ⟨hreq, heq⟩ | ⟨msg, hreq, heq⟩⟩
  · constructor
    · rw [heq]
      simp
    · intro e he _
      rw [heq] at he
      simp at he
  · constructor
    · rw [heq]
      simp [isPost]
    · intro e he hp
      rw [heq] at he
      simp at he
      rcases he with rfl | rfl | rfl <;> simp [isPost] at hp
  · constructor
    · rw [heq]
      simp [isPost]
    · intro e he hp
      rw [heq] at he
      simp at he
      rcases he with rfl | rfl | rfl | rfl | rfl <;> simp [isPost] at hp
  · constructor
    · rw [heq]
      simp only [List.filter_append, baseTrace_filter_post, langResolution_filter_post]
      simp
    · intro e he hp
      rw [heq] at he
      rcases List.mem_append.mp he with h | h
      · rw [(baseTrace_events u e h).1] at hp
        exact absurd hp (by simp)
      · rw [(langResolution_events env u _ e h).1] at hp
        exact absurd hp (by simp)
  · have hflt : ((runRemoteQuery env uri).2.filter isPost).length = 1 := by
      rw [heq]
      simp only [List.filter_append, baseTrace_filter_post, langResolution_filter_post]
      simp [isPost]
    refine ⟨le_of_eq hflt, ?_⟩
    intro e he hp
    refine ⟨?_, hflt⟩
    rw [heq] at he
    rcases List.mem_append.mp he with h | h
    · rcases List.mem_append.mp h with h2 | h2
      · rw [(baseTrace_events u e h2).1] at hp
        exact absurd hp (by simp)
      · rw [(langResolution_events env u _ e h2).1] at hp
        exact absurd hp (by simp)
    · simp at h
      rcases h with rfl | rfl
      · simp [postTarget, requestEndpoint, OWNER, REPO]
      · simp [isPost] at hp
  · have hflt : ((runRemoteQuery env uri).2.filter isPost).length = 1 := by
      rw [heq]
      simp only [List.filter_append, baseTrace_filter_post, langResolution_filter_post]
      simp [isPost]
    refine ⟨le_of_eq hflt, ?_⟩
    intro e he hp
    refine ⟨?_, hflt⟩
    rw [heq] at he
    rcases List.mem_append.mp he with h | h
    · rcases List.mem_append.mp h with h2 | h2
      · rw [(baseTrace_events u e h2).1] at hp
        exact absurd hp (by simp)
      · rw [(langResolution_events env u _ e h2).1] at hp
        exact absurd hp (by simp)
    · simp at h
      rcases h with rfl | rfl
      · simp [postTarget, requestEndpoint, OWNER, REPO]
      · simp [isPost] at hp

/-- Witness for C1 at a concrete happy-path run: its trace contains the POST
event, whose target is the fixed endpoint, owner and repo. -/
theorem C1_witness :
    postTarget (Event.httpRequest requestEndpoint OWNER REPO "dev" "go" ["a/b"]
        "select 1" "tok") =
      some (requestEndpoint, "dsp-testing", "qc-controller") ∧
    ((runRemoteQuery envA (some ⟨"q.ql"⟩)).2.filter isPost).length = 1 := by
  have h := (C1_runRemoteQuery_single_fixed_target envA (some ⟨"q.ql"⟩)).2
    (Event.httpRequest requestEndpoint OWNER REPO "dev" "go" ["a/b"] "select 1" "tok")
    (by decide) (by decide)
  exact ⟨h.1, h.2⟩

/-- Counterexample to claim C2 as stated: in `envB` the parsed configuration
supplies `ref = some ""`, yet the issued request carries `ref = "main"`, so
the ref field of the request does not equal the ref field of the parsed configuration
(JavaScript `||` treats the empty string as absent). -/
theorem C2_counterexample :
    (envB.parseYaml "cfg").ref = some "" ∧
    Event.httpRequest requestEndpoint OWNER REPO "main" "go" ["a/b"] "select 1" "tok"
      ∈ (runRemoteQuery envB (some ⟨"q.ql"⟩)).2 ∧
    ¬ (∀ e ∈ (runRemoteQuery envB (some ⟨"q.ql"⟩)).2, isPost e = true →
        postRef e = (envB.parseYaml "cfg").ref) := by
  decide

/-- Claim C2 (amended): whenever `runRemoteQuery` issues the request, the
repositories field, the query text and the token pass through unmodified
from the parsed configuration, the content of the query file and the credentials;
the ref and language fields pass through unmodified whenever the
configuration supplies them as non-empty strings (an empty-string ref falls
back to `main`, and an empty-string language triggers `findLanguage`, by
JavaScript truthiness). -/
theorem C2_payload_passthrough (env : Env) (u : Uri) (q c : String)
    (hq : env.files u.fsPath = some q)
    (hc : env.files (reposFilePath u.fsPath) = some c) :
    ∀ e, e ∈ (runRemoteQuery env (some u)).2 → isPost e = true →
      postRepos e = some (env.parseYaml c).repositories ∧
      postQuery e = some q ∧
      postToken e = some env.token ∧
      (∀ r, (env.parseYaml c).ref = some r → r ≠ "" → postRef e = some r) ∧
      (∀ l0, (env.parseYaml c).language = some l0 → l0 ≠ "" → postLang e = some l0) := by
  rcases runRemoteQuery_shape env (some u) with
      ⟨_, heq⟩ | ⟨u', _, _, _, heq⟩ | ⟨u', q', _, _, _, _, heq⟩ |
      ⟨u', q', c', _, _, _, _, hf, heq⟩ |
      ⟨u', q', c', l, husome, _, hq', hc', hl, hlne, ⟨hreq, heq⟩ | ⟨msg, hreq, heq⟩⟩
  · intro e he _
    rw [heq] at he
    simp at he
  · intro e he hp
    rw [heq] at he
    simp at he
    rcases he with rfl | rfl | rfl <;> simp [isPost] at hp
  · intro e he hp
    rw [heq] at he
    simp at he
    rcases he with rfl | rfl | rfl | rfl | rfl <;> simp [isPost] at hp
  · intro e he hp
    rw [heq] at he
    rcases List.mem_append.mp he with h | h
    · rw [(baseTrace_events u' e h).1] at hp
      exact absurd hp (by simp)
    · rw [(langResolution_events env u' _ e h).1] at hp
      exact absurd hp (by simp)
  all_goals {
    have hu : u' = u := (Option.some.inj husome).symm
    rw [hu] at hq' hc' hl heq
    have hqq : q' = q := Option.some.inj (hq'.symm.trans hq)
    have hcc : c' = c := Option.some.inj (hc'.symm.trans hc)
    rw [hqq, hcc] at heq
    rw [hcc] at hl
    intro e he hp
    rw [heq] at he
    rcases List.mem_append.mp he with h | h
    · rcases List.mem_append.mp h with h2 | h2
      · rw [(baseTrace_events u e h2).1] at hp
        exact absurd hp (by simp)
      · rw [(langResolution_events env u _ e h2).1] at hp
        exact absurd hp (by simp)
    · simp at h
      rcases h with rfl | rfl
      · refine ⟨by simp [postRepos], by simp [postQuery], by simp [postToken], ?_, ?_⟩
        · intro r hr hrne
          simp [postRef, hr, jsOrStr, hrne]
        · intro l0 hl0 hl0ne
          have hfl : (langResolution env u (env.parseYaml c).language).1 = some l0 := by
            simp [langResolution, hl0, hl0ne]
          have : l = l0 := Option.some.inj (hl.symm.trans hfl)
          simp [postLang, this]
      · simp [isPost] at hp
  }

/-- Witness for C2 at a concrete run: the POST of `envA` carries the
repositories of the configuration, the text of the query file, the token, and the
supplied non-empty ref `dev` and language `go`. -/
theorem C2_witness :
    postRepos (Event.httpRequest requestEndpoint OWNER REPO "dev" "go" ["a/b"]
        "select 1" "tok") = some (envA.parseYaml "cfg").repositories ∧
    postQuery (Event.httpRequest requestEndpoint OWNER REPO "dev" "go" ["a/b"]
        "select 1" "tok") = some "select 1" ∧
    postRef (Event.httpRequest requestEndpoint OWNER REPO "dev" "go" ["a/b"]
        "select 1" "tok") = some "dev" ∧
    postLang (Event.httpRequest requestEndpoint OWNER REPO "dev" "go" ["a/b"]
        "select 1" "tok") = some "go" := by
  have h := C2_payload_passthrough envA ⟨"q.ql"⟩ "select 1" "cfg" (by decide) (by decide)
    (Event.httpRequest requestEndpoint OWNER REPO "dev" "go" ["a/b"] "select 1" "tok")
    (by decide) (by decide)
  exact ⟨h.1, h.2.1, h.2.2.2.1 "dev" (by decide) (by decide),
    h.2.2.2.2 "go" (by decide) (by decide)⟩

theorem exists_stem_of_jsEndsWith {s t : String} (h : jsEndsWith s t = true) :
    ∃ stem : String, s = stem ++ t := by
  unfold jsEndsWith at h
  rw [List.isSuffixOf_iff_suffix] at h
  obtain ⟨pre, hpre⟩ := h
  refine ⟨String.mk pre, String.ext ?_⟩
  rw [String.data_append]
  exact hpre.symm

theorem reposFilePath_append (stem : String) :
    reposFilePath (stem ++ ".ql") = stem ++ ".repositories" := by
  apply String.ext
  show ((stem ++ ".ql").data.take ((stem ++ ".ql").data.length - ".ql".data.length))
      ++ ".repositories".data = stem.data ++ ".repositories".data
  rw [String.data_append, List.length_append, Nat.add_sub_cancel, List.take_left]

/-- Claim C3: for every uri accepted by `runRemoteQuery` (its path ends in
`.ql`), the only file whose existence is checked is the sibling obtained by
replacing the trailing `.ql` with `.repositories`, and the only files read
are the query file itself and that sibling; no other configuration file is
consulted. -/
theorem C3_sibling_config_file (env : Env) (u : Uri)
    (h : jsEndsWith u.fsPath ".ql" = true) :
    (∀ p, Event.readFile p ∈ (runRemoteQuery env (some u)).2 →
       p = u.fsPath ∨ p = reposFilePath u.fsPath) ∧
    (∀ p, Event.pathExists p ∈ (runRemoteQuery env (some u)).2 →
       p = reposFilePath u.fsPath) ∧
    (∃ stem, u.fsPath = stem ++ ".ql" ∧
       reposFilePath u.fsPath = stem ++ ".repositories") := by
  have hstem : ∃ stem, u.fsPath = stem ++ ".ql" ∧
      reposFilePath u.fsPath = stem ++ ".repositories" := by
    obtain ⟨stem, hs⟩ := exists_stem_of_jsEndsWith h
    exact ⟨stem, hs, by rw [hs, reposFilePath_append]⟩
  rcases runRemoteQuery_shape env (some u) with
      ⟨_, heq⟩ | ⟨u', husome, _, _, heq⟩ | ⟨u', q', husome, _, _, _, heq⟩ |
      ⟨u', q', c', husome, _, _, _, hf, heq⟩ |
      ⟨u', q', c', l, husome, _, _, _, hl, hlne, ⟨hreq, heq⟩ | ⟨msg, hreq, heq⟩⟩
  · refine ⟨?_, ?_, hstem⟩ <;> intro p hp <;> rw [heq] at hp <;> simp at hp
  · have hu : u' = u := (Option.some.inj husome).symm
    rw [hu] at heq
    refine ⟨?_, ?_, hstem⟩ <;> intro p hp <;> rw [heq] at hp <;> simp at hp
    · exact Or.inl hp
  · have hu : u' = u := (Option.some.inj husome).symm
    rw [hu] at heq
    refine ⟨?_, ?_, hstem⟩ <;> intro p hp <;> rw [heq] at hp <;> simp at hp
    · exact Or.inl hp
    · exact hp
  · have hu : u' = u := (Option.some.inj husome).symm
    rw [hu] at heq
    refine ⟨?_, ?_, hstem⟩ <;> intro p hp <;> rw [heq] at hp <;>
      rcases List.mem_append.mp hp with hp2 | hp2
    · simp [baseTrace] at hp2
      rcases hp2 with hp2 | hp2
      · exact Or.inl hp2
      · exact Or.inr hp2
    · exfalso
      have := (langResolution_events env u _ _ hp2).2.1
      simp [isReadFile] at this
    · simp [baseTrace] at hp2
      exact hp2
    · exfalso
      have := (langResolution_events env u _ _ hp2).2.2.2
      simp [isPathExists] at this
  all_goals {
    have hu : u' = u := (Option.some.inj husome).symm
    rw [hu] at heq
    refine ⟨?_, ?_, hstem⟩ <;> intro p hp <;> rw [heq] at hp <;>
      rcases List.mem_append.mp hp with hp2 | hp2
    · rcases List.mem_append.mp hp2 with hp3 | hp3
      · simp [baseTrace] at hp3
        rcases hp3 with hp3 | hp3
        · exact Or.inl hp3
        · exact Or.inr hp3
      · exfalso
        have := (langResolution_events env u _ _ hp3).2.1
        simp [isReadFile] at this
    · simp at hp2
    · rcases List.mem_append.mp hp2 with hp3 | hp3
      · simp [baseTrace] at hp3
        exact hp3
      · exfalso
        have := (langResolution_events env u _ _ hp3).2.2.2
        simp [isPathExists] at this
    · simp at hp2
  }

/-- Witness for C3: in the concrete run with query file `q.ql` the existence
check targets exactly `q.repositories`, obtained by replacing the trailing
`.ql`. -/
theorem C3_witness :
    ("q.repositories" : String) = reposFilePath "q.ql" ∧
    (∃ stem, ("q.ql" : String) = stem ++ ".ql" ∧
       reposFilePath "q.ql" = stem ++ ".repositories") := by
  have h := C3_sibling_config_file envD ⟨"q.ql"⟩ (by decide)
  exact ⟨(h.2.1 "q.repositories" (by decide)).symm, h.2.2⟩

theorem jsOrStr_falsy {v : Option String} {d : String} (h : jsFalsyStr v = true) :
    jsOrStr v d = d := by
  cases v with
  | none => rfl
  | some s =>
    simp [jsFalsyStr] at h
    simp [jsOrStr, h]

theorem jsOrStr_truthy {v : Option String} {r d : String} (hv : v = some r)
    (h : r ≠ "") : jsOrStr v d = r := by
  subst hv
  simp [jsOrStr, h]

theorem langResolution_falsy (env : Env) (u : Uri) (cl : Option String)
    (h : jsFalsyStr cl = true) :
    langResolution env u cl = findLanguage env (some u) := by
  rcases langResolution_cases env u cl with ⟨_, heq⟩ | ⟨l, hcl, hlne, heq⟩
  · exact heq
  · subst hcl
    simp [jsFalsyStr, hlne] at h

/-- Counterexample to claim C4 as stated: in `envC` the parsed configuration
supplies the language field (as the empty string), yet `findLanguage` is
still called (the CLI resolution event appears in the trace) and the request
does not carry the supplied value — JavaScript `||` treats the empty string
as absent. -/
theorem C4_counterexample :
    (envC.parseYaml "cfg").language = some "" ∧
    Event.resolveQueryByLanguage "q.ql" ∈ (runRemoteQuery envC (some ⟨"q.ql"⟩)).2 ∧
    ¬ (∀ e ∈ (runRemoteQuery envC (some ⟨"q.ql"⟩)).2, isPost e = true →
        postLang e = (envC.parseYaml "cfg").language) := by
  decide

/-- Claim C4 (amended): optional values resolve by lookup with fallback
under JavaScript truthiness.  If the ref of the configuration is absent or empty
the request uses `main`; a supplied non-empty ref is used as is.  If the
language of the configuration is absent or empty, the language is resolved by
calling `findLanguage` (whose trace embeds in the trace of the run); when a
non-empty language is supplied, `findLanguage` is not called (no CLI or
prompt event occurs) and the supplied value is used. -/
theorem C4_lookup_fallback (env : Env) (u : Uri) (q c : String)
    (hql : jsEndsWith u.fsPath ".ql" = true)
    (hq : env.files u.fsPath = some q)
    (hc : env.files (reposFilePath u.fsPath) = some c) :
    (jsFalsyStr (env.parseYaml c).ref = true →
       ∀ e ∈ (runRemoteQuery env (some u)).2, isPost e = true →
         postRef e = some "main") ∧
    (∀ r, (env.parseYaml c).ref = some r → r ≠ "" →
       ∀ e ∈ (runRemoteQuery env (some u)).2, isPost e = true → postRef e = some r) ∧
    (jsFalsyStr (env.parseYaml c).language = true →
       langResolution env u (env.parseYaml c).language = findLanguage env (some u) ∧
       ∃ pre suf, (runRemoteQuery env (some u)).2 =
         pre ++ (findLanguage env (some u)).2 ++ suf) ∧
    (∀ l0, (env.parseYaml c).language = some l0 → l0 ≠ "" →
       (∀ e ∈ (runRemoteQuery env (some u)).2, isLangResolutionEvent e = false) ∧
       (∀ e ∈ (runRemoteQuery env (some u)).2, isPost e = true →
          postLang e = some l0)) := by
  rcases runRemoteQuery_shape env (some u) with
      ⟨hcause, _⟩ | ⟨u', husome, _, hq', _⟩ | ⟨u', q', husome, _, _, hc', _⟩ |
      ⟨u', q', c', husome, _, hq', hc', hf, heq⟩ |
      ⟨u', q', c', l, husome, _, hq', hc', hl, hlne, ⟨hreq, heq⟩ | ⟨msg, hreq, heq⟩⟩
  · exfalso
    rcases hcause with hnone | ⟨u', husome, hfalse⟩
    · simp at hnone
    · have hu : u' = u := (Option.some.inj husome).symm
      rw [hu] at hfalse
      rw [hql] at hfalse
      simp at hfalse
  · exfalso
    have hu : u' = u := (Option.some.inj husome).symm
    rw [hu] at hq'
    rw [hq'] at hq
    exact Option.noConfusion hq
  · exfalso
    have hu : u' = u := (Option.some.inj husome).symm
    rw [hu] at hc'
    rw [hc'] at hc
    exact Option.noConfusion hc
  · -- language resolution aborted: no POST in the trace
    have hu : u' = u := (Option.some.inj husome).symm
    rw [hu] at hq' hc' hf heq
    have hcc : c' = c := Option.some.inj (hc'.symm.trans hc)
    rw [hcc] at hf heq
    have hnopost : ∀ e ∈ (runRemoteQuery env (some u)).2, isPost e = false := by
      intro e he
      rw [heq] at he
      rcases List.mem_append.mp he with h2 | h2
      · exact (baseTrace_events u e h2).1
      · exact (langResolution_events env u _ e h2).1
    refine ⟨?_, ?_, ?_, ?_⟩
    · intro _ e he hp
      rw [hnopost e he] at hp
      exact absurd hp (by simp)
    · intro r _ _ e he hp
      rw [hnopost e he] at hp
      exact absurd hp (by simp)
    · intro hlf
      have hfl := langResolution_falsy env u (env.parseYaml c).language hlf
      refine ⟨hfl, baseTrace u, [], ?_⟩
      rw [heq]
      rw [← hfl]
      simp
    · intro l0 hl0 hl0ne
      exfalso
      have hfl1 : (langResolution env u (env.parseYaml c).language).1 = some l0 := by
        simp [langResolution, hl0, hl0ne]
      rw [hfl1] at hf
      simp [jsFalsyStr, hl0ne] at hf
  all_goals {
    have hu : u' = u := (Option.some.inj husome).symm
    rw [hu] at hq' hc' hl heq
    have hqq : q' = q := Option.some.inj (hq'.symm.trans hq)
    have hcc : c' = c := Option.some.inj (hc'.symm.trans hc)
    rw [hqq, hcc] at heq
    rw [hcc] at hl
    have hpost : ∀ e, e ∈ (runRemoteQuery env (some u)).2 → isPost e = true →
        postRef e = some (jsOrStr (env.parseYaml c).ref "main") ∧
        postLang e = some l := by
      intro e he hp
      rw [heq] at he
      rcases List.mem_append.mp he with h2 | h2
      · rcases List.mem_append.mp h2 with h3 | h3
        · rw [(baseTrace_events u e h3).1] at hp
          exact absurd hp (by simp)
        · rw [(langResolution_events env u _ e h3).1] at hp
          exact absurd hp (by simp)
      · simp at h2
        rcases h2 with rfl | rfl
        · simp [postRef, postLang]
        · simp [isPost] at hp
    refine ⟨?_, ?_, ?_, ?_⟩
    · intro hrf e he hp
      rw [(hpost e he hp).1, jsOrStr_falsy hrf]
    · intro r hr hrne e he hp
      rw [(hpost e he hp).1, jsOrStr_truthy hr hrne]
    · intro hlf
      have hfl := langResolution_falsy env u (env.parseYaml c).language hlf
      have htail : ∃ tail, (runRemoteQuery env (some u)).2 =
          (baseTrace u ++ (langResolution env u (env.parseYaml c).language).2) ++ tail :=
        ⟨_, by rw [heq]⟩
      obtain ⟨tail, htl⟩ := htail
      refine ⟨hfl, baseTrace u, tail, ?_⟩
      rw [htl, ← hfl]
    · intro l0 hl0 hl0ne
      have hfl2 : langResolution env u (env.parseYaml c).language = (some l0, []) := by
        simp [langResolution, hl0, hl0ne]
      have hll : l = l0 := by
        rw [hfl2] at hl
        exact (Option.some.inj hl).symm
      constructor
      · intro e he
        rw [heq] at he
        rcases List.mem_append.mp he with h2 | h2
        · rcases List.mem_append.mp h2 with h3 | h3
          · exact (baseTrace_events u e h3).2.2
          · rw [hfl2] at h3
            simp at h3
        · simp at h2
          rcases h2 with rfl | rfl <;> simp [isLangResolutionEvent]
      · intro e he hp
        rw [(hpost e he hp).2, hll]
  }

/-- Witness for C4 at concrete runs: with a supplied non-empty ref and
language (envA) the request carries them and no CLI or prompt event occurs;
the fallback branch is exercised by the other conjuncts of the amended theorem. -/
theorem C4_witness :
    postRef (Event.httpRequest requestEndpoint OWNER REPO "dev" "go" ["a/b"]
        "select 1" "tok") = some "dev" ∧
    postLang (Event.httpRequest requestEndpoint OWNER REPO "dev" "go" ["a/b"]
        "select 1" "tok") = some "go" ∧
    isLangResolutionEvent (Event.getToken) = false := by
  have h := C4_lookup_fallback envA ⟨"q.ql"⟩ "select 1" "cfg"
    (by decide) (by decide) (by decide)
  refine ⟨?_, ?_, ?_⟩
  · exact h.2.1 "dev" (by decide) (by decide)
      (Event.httpRequest requestEndpoint OWNER REPO "dev" "go" ["a/b"] "select 1" "tok")
      (by decide) (by decide)
  · exact ((h.2.2.2 "go" (by decide) (by decide)).2
      (Event.httpRequest requestEndpoint OWNER REPO "dev" "go" ["a/b"] "select 1" "tok")
      (by decide) (by decide))
  · exact (h.2.2.2 "go" (by decide) (by decide)).1 Event.getToken (by decide)

/-- Claim C5: `findLanguage` first attempts CLI autodetection on the query
uri or, when that is absent, on the document uri of the active editor; on success
it returns the detected language and performs no prompt.  Only when
autodetection throws, or no uri is available, does it fall back to a quick
pick over the available languages of the CLI; the pick returning nothing (the
user cancelled) yields the error message and no language. -/
theorem C5_findLanguage_resolution (env : Env) (q : Option Uri) :
    (∀ u keys, q.or env.activeEditorUri = some u →
       env.resolveQueryByLanguage u.fsPath = Except.ok keys →
       findLanguage env q =
         (keys.head?,
          [Event.resolveQueryByLanguage u.fsPath,
           Event.logMsg (detectedMsg keys.head?)])) ∧
    (∀ u msg, q.or env.activeEditorUri = some u →
       env.resolveQueryByLanguage u.fsPath = Except.error msg →
       findLanguage env q =
         (env.quickPick env.resolveLanguages,
          [Event.resolveQueryByLanguage u.fsPath, Event.logMsg autodetectFailMsg,
           Event.resolveLanguages, Event.quickPick env.resolveLanguages] ++
            cancelEvents (env.quickPick env.resolveLanguages))) ∧
    (q.or env.activeEditorUri = none →
       findLanguage env q =
         (env.quickPick env.resolveLanguages,
          [Event.resolveLanguages, Event.quickPick env.resolveLanguages] ++
            cancelEvents (env.quickPick env.resolveLanguages))) ∧
    cancelEvents none = [Event.errorMessage cancelMsg] := by
  refine ⟨?_, ?_, ?_, rfl⟩
  · intro u keys hu hres
    exact findLanguage_of_ok env q u keys hu hres
  · intro u msg hu hres
    exact findLanguage_of_err env q u msg hu hres
  · intro hu
    exact findLanguage_of_none env q hu

/-- Witness for C5: in `envG` autodetection succeeds with `cpp` and
`findLanguage` returns it with only the CLI call and a log line. -/
theorem C5_witness :
    findLanguage envG (some ⟨"q.ql"⟩) =
      (some "cpp",
       [Event.resolveQueryByLanguage "q.ql",
        Event.logMsg (detectedMsg (some "cpp"))]) := by
  exact (C5_findLanguage_resolution envG (some ⟨"q.ql"⟩)).1 ⟨"q.ql"⟩ ["cpp"] rfl rfl

/-- Claim C6: every invocation is one sequential pass with no retry: at most
one POST and at most one notification per trace, and whenever the trace
splits around a POST, everything before it contains no POST and no
notification, and everything after it is exactly the one final
notification. -/
theorem C6_sequential_single_pass (env : Env) (uri : Option Uri) :
    (((runRemoteQuery env uri).2.filter isPost).length ≤ 1) ∧
    (((runRemoteQuery env uri).2.filter isUserMessage).length ≤ 1) ∧
    (∀ tr1 e tr2, (runRemoteQuery env uri).2 = tr1 ++ e :: tr2 → isPost e = true →
      (∀ x ∈ tr1, isPost x = false ∧ isUserMessage x = false) ∧
      (∃ m, tr2 = [m] ∧ isUserMessage m = true)) := by
  rcases runRemoteQuery_shape env uri with
      ⟨_, heq⟩ | ⟨u, _, _, _, heq⟩ | ⟨u, q, _, _, _, _, heq⟩ |
      ⟨u, q, c, _, _, _, _, hf, heq⟩ |
      ⟨u, q, c, l, _, _, _, _, hl, hlne, ⟨hreq, heq⟩ | ⟨msg, hreq, heq⟩⟩
  · refine ⟨by rw [heq]; simp, by rw [heq]; simp, ?_⟩
    intro tr1 e tr2 heq2 hp
    rw [heq] at heq2
    dsimp only at heq2
    exfalso
    have : e ∈ ([] : List Event) := by
      rw [heq2]
      simp
    simp at this
  · refine ⟨by rw [heq]; simp [isPost], by rw [heq]; simp [isUserMessage], ?_⟩
    intro tr1 e tr2 heq2 hp
    rw [heq] at heq2
    dsimp only at heq2
    exfalso
    have he : e ∈ [Event.getOctokit, Event.getToken, Event.readFile u.fsPath] := by
      rw [heq2]
      simp
    simp at he
    rcases he with rfl | rfl | rfl <;> simp [isPost] at hp
  · refine ⟨by rw [heq]; simp [isPost], by rw [heq]; simp [isUserMessage], ?_⟩
    intro tr1 e tr2 heq2 hp
    rw [heq] at heq2
    dsimp only at heq2
    exfalso
    have he : e ∈ [Event.getOctokit, Event.getToken, Event.readFile u.fsPath,
        Event.pathExists (reposFilePath u.fsPath),
        Event.errorMessage (missingFileMsg (reposFilePath u.fsPath) u.fsPath)] := by
      rw [heq2]
      simp
    simp at he
    rcases he with rfl | rfl | rfl | rfl | rfl <;> simp [isPost] at hp
  · refine ⟨?_, ?_, ?_⟩
    · rw [heq]
      simp only [List.filter_append, baseTrace_filter_post, langResolution_filter_post]
      simp
    · rw [heq]
      simp only [List.filter_append, baseTrace_filter_message, List.length_append]
      simpa using langResolution_filter_message_le env u (env.parseYaml c).language
    · intro tr1 e tr2 heq2 hp
      rw [heq] at heq2
      dsimp only at heq2
      exfalso
      have he : e ∈ baseTrace u ++ (langResolution env u (env.parseYaml c).language).2 := by
        rw [heq2]
        simp
      rcases List.mem_append.mp he with h | h
      · rw [(baseTrace_events u e h).1] at hp
        exact absurd hp (by simp)
      · rw [(langResolution_events env u _ e h).1] at hp
        exact absurd hp (by simp)
  all_goals {
    have htruthy : jsFalsyStr (langResolution env u (env.parseYaml c).language).1 = false := by
      rw [hl]
      simp [jsFalsyStr, hlne]
    have hfl_nomsg : ∀ x ∈ (langResolution env u (env.parseYaml c).language).2,
        isUserMessage x = false := by
      intro x hx
      have hnil := langResolution_truthy_no_message env u (env.parseYaml c).language htruthy
      have := List.filter_eq_nil_iff.mp hnil x hx
      simpa using this
    have hL : ∀ x ∈ baseTrace u ++ (langResolution env u (env.parseYaml c).language).2,
        isPost x = false ∧ isUserMessage x = false := by
      intro x hx
      rcases List.mem_append.mp hx with h | h
      · exact ⟨(baseTrace_events u x h).1, (baseTrace_events u x h).2.1⟩
      · exact ⟨(langResolution_events env u _ x h).1, hfl_nomsg x h⟩
    refine ⟨?_, ?_, ?_⟩
    · rw [heq]
      simp only [List.filter_append, baseTrace_filter_post, langResolution_filter_post]
      simp [isPost]
    · rw [heq]
      simp only [List.filter_append, baseTrace_filter_message,
        langResolution_truthy_no_message env u (env.parseYaml c).language htruthy]
      simp [isUserMessage]
    · intro tr1 e tr2 heq2 hp
      rw [heq] at heq2
      dsimp only at heq2
      obtain ⟨h1, h2, h3⟩ := split_unique
        (baseTrace u ++ (langResolution env u (env.parseYaml c).language).2) _ _ tr1 tr2 e
        (fun x hx => (hL x hx).1)
        (by intro x hx; simp at hx; subst hx; simp [isPost])
        heq2 hp
      refine ⟨?_, ?_⟩
      · rw [h1]
        exact hL
      · exact ⟨_, h3, by simp [isUserMessage]⟩
  }

/-- Witness for C6 at a failing-request run: the POST splits the trace with
no earlier POST or notification and exactly one notification after it. -/
theorem C6_witness :
    ((runRemoteQuery envF (some ⟨"q.ql"⟩)).2.filter isPost).length ≤ 1 ∧
    (∃ m, [Event.errorMessage "boom"] = [m] ∧ isUserMessage m = true) := by
  have h := C6_sequential_single_pass envF (some ⟨"q.ql"⟩)
  refine ⟨h.1, ?_⟩
  exact (h.2.2 [Event.getOctokit, Event.getToken, Event.readFile "q.ql",
      Event.pathExists "q.repositories", Event.readFile "q.repositories"]
      (Event.httpRequest requestEndpoint OWNER REPO "dev" "go" ["a/b"] "select 1" "tok")
      [Event.errorMessage "boom"] (by decide) (by decide)).2

/-- Claim C7: when the request stage is reached, the invocation returns
normally (never `thrown`) whatever the request outcome; a failing request is
caught and followed by exactly the error notification carrying the error,
while a succeeding request is followed by exactly the success information
notification; and the POST is never issued more than once. -/
theorem C7_request_outcome_notification (env : Env) (uri : Option Uri) :
    (((runRemoteQuery env uri).2.filter isPost).length ≤ 1) ∧
    (∀ tr1 e tr2, (runRemoteQuery env uri).2 = tr1 ++ e :: tr2 → isPost e = true →
      (runRemoteQuery env uri).1 = RunResult.normal ∧
      (∀ msg, env.requestResult = Except.error msg → tr2 = [Event.errorMessage msg]) ∧
      (env.requestResult = Except.ok () → tr2 = [Event.infoMessage successMsg])) := by
  rcases runRemoteQuery_shape env uri with
      ⟨_, heq⟩ | ⟨u, _, _, _, heq⟩ | ⟨u, q, _, _, _, _, heq⟩ |
      ⟨u, q, c, _, _, _, _, hf, heq⟩ |
      ⟨u, q, c, l, _, _, _, _, hl, hlne, ⟨hreq, heq⟩ | ⟨msg, hreq, heq⟩⟩
  · refine ⟨by rw [heq]; simp, ?_⟩
    intro tr1 e tr2 heq2 hp
    rw [heq] at heq2
    dsimp only at heq2
    exfalso
    have he : e ∈ ([] : List Event) := by
      rw [heq2]
      simp
    simp at he
  · refine ⟨by rw [heq]; simp [isPost], ?_⟩
    intro tr1 e tr2 heq2 hp
    rw [heq] at heq2
    dsimp only at heq2
    exfalso
    have he : e ∈ [Event.getOctokit, Event.getToken, Event.readFile u.fsPath] := by
      rw [heq2]
      simp
    simp at he
    rcases he with rfl | rfl | rfl <;> simp [isPost] at hp
  · refine ⟨by rw [heq]; simp [isPost], ?_⟩
    intro tr1 e tr2 heq2 hp
    rw [heq] at heq2
    dsimp only at heq2
    exfalso
    have he : e ∈ [Event.getOctokit, Event.getToken, Event.readFile u.fsPath,
        Event.pathExists (reposFilePath u.fsPath),
        Event.errorMessage (missingFileMsg (reposFilePath u.fsPath) u.fsPath)] := by
      rw [heq2]
      simp
    simp at he
    rcases he with rfl | rfl | rfl | rfl | rfl <;> simp [isPost] at hp
  · refine ⟨?_, ?_⟩
    · rw [heq]
      simp only [List.filter_append, baseTrace_filter_post, langResolution_filter_post]
      simp
    · intro tr1 e tr2 heq2 hp
      rw [heq] at heq2
      dsimp only at heq2
      exfalso
      have he : e ∈ baseTrace u ++ (langResolution env u (env.parseYaml c).language).2 := by
        rw [heq2]
        simp
      rcases List.mem_append.mp he with h | h
      · rw [(baseTrace_events u e h).1] at hp
        exact absurd hp (by simp)
      · rw [(langResolution_events env u _ e h).1] at hp
        exact absurd hp (by simp)
  all_goals {
    have hL : ∀ x ∈ baseTrace u ++ (langResolution env u (env.parseYaml c).language).2,
        isPost x = false := by
      intro x hx
      rcases List.mem_append.mp hx with h | h
      · exact (baseTrace_events u x h).1
      · exact (langResolution_events env u _ x h).1
    refine ⟨?_, ?_⟩
    · rw [heq]
      simp only [List.filter_append, baseTrace_filter_post, langResolution_filter_post]
      simp [isPost]
    · intro tr1 e tr2 heq2 hp
      rw [heq] at heq2
      dsimp only at heq2
      obtain ⟨h1, h2, h3⟩ := split_unique
        (baseTrace u ++ (langResolution env u (env.parseYaml c).language).2) _ _ tr1 tr2 e
        hL
        (by intro x hx; simp at hx; subst hx; simp [isPost])
        heq2 hp
      refine ⟨by rw [heq], ?_, ?_⟩
      · intro msg2 hmsg2
        rw [hreq] at hmsg2
        first
        | (exact absurd hmsg2 (by intro hcon; exact Except.noConfusion hcon))
        | (injection hmsg2 with h4; rw [h3, h4])
      · intro hok
        rw [hreq] at hok
        first
        | (exact h3)
        | (exact absurd hok (by intro hcon; exact Except.noConfusion hcon))
  }

/-- Witness for C7 at a failing-request run: the run finishes normally and
the events after the POST are exactly the error notification. -/
theorem C7_witness :
    (runRemoteQuery envF (some ⟨"q.ql"⟩)).1 = RunResult.normal ∧
    [Event.errorMessage "boom"] = [Event.errorMessage "boom"] := by
  have h := (C7_request_outcome_notification envF (some ⟨"q.ql"⟩)).2
    [Event.getOctokit, Event.getToken, Event.readFile "q.ql",
     Event.pathExists "q.repositories", Event.readFile "q.repositories"]
    (Event.httpRequest requestEndpoint OWNER REPO "dev" "go" ["a/b"] "select 1" "tok")
    [Event.errorMessage "boom"] (by decide) (by decide)
  exact ⟨h.1, h.2.1 "boom" rfl⟩

/-- Claim C8: with no uri, or a uri whose path does not end in `.ql`,
`runRemoteQuery` returns normally with an empty trace: no credentials are
fetched, no file is read, no language resolution occurs, no request is
issued, and no notification is shown. -/
theorem C8_guard_no_effect (env : Env) :
    runRemoteQuery env none = (RunResult.normal, []) ∧
    (∀ u : Uri, jsEndsWith u.fsPath ".ql" = false →
       runRemoteQuery env (some u) = (RunResult.normal, [])) := by
  refine ⟨rfl, ?_⟩
  intro u h
  simp [runRemoteQuery, h]

/-- Witness for C8: a text file and a missing uri produce the empty trace. -/
theorem C8_witness :
    runRemoteQuery envA (some ⟨"notes.txt"⟩) = (RunResult.normal, []) ∧
    runRemoteQuery envA none = (RunResult.normal, []) := by
  exact ⟨(C8_guard_no_effect envA).2 ⟨"notes.txt"⟩ (by decide), (C8_guard_no_effect envA).1⟩

/-- Claim C9: when the sibling `.repositories` file does not exist, the run
shows exactly the error notification naming the missing file and returns;
no configuration is read or parsed, no language resolution occurs, and no
request is issued. -/
theorem C9_missing_config_file (env : Env) (u : Uri) (q : String)
    (hql : jsEndsWith u.fsPath ".ql" = true)
    (hq : env.files u.fsPath = some q)
    (hr : env.files (reposFilePath u.fsPath) = none) :
    runRemoteQuery env (some u) =
      (RunResult.normal,
       [Event.getOctokit, Event.getToken, Event.readFile u.fsPath,
        Event.pathExists (reposFilePath u.fsPath),
        Event.errorMessage (missingFileMsg (reposFilePath u.fsPath) u.fsPath)]) ∧
    (∀ e ∈ (runRemoteQuery env (some u)).2,
       isPost e = false ∧ isLangResolutionEvent e = false ∧ isInfoMessage e = false ∧
         e ≠ Event.readFile (reposFilePath u.fsPath) ∨
       e = Event.readFile u.fsPath) := by
  have heq : runRemoteQuery env (some u) =
      (RunResult.normal,
       [Event.getOctokit, Event.getToken, Event.readFile u.fsPath,
        Event.pathExists (reposFilePath u.fsPath),
        Event.errorMessage (missingFileMsg (reposFilePath u.fsPath) u.fsPath)]) := by
    simp [runRemoteQuery, hql, hq, hr]
  refine ⟨heq, ?_⟩
  intro e he
  rw [heq] at he
  simp at he
  rcases he with rfl | rfl | rfl | rfl | rfl
  · exact Or.inl ⟨rfl, rfl, rfl, by simp⟩
  · exact Or.inl ⟨rfl, rfl, rfl, by simp⟩
  · exact Or.inr rfl
  · exact Or.inl ⟨rfl, rfl, rfl, by simp⟩
  · exact Or.inl ⟨rfl, rfl, rfl, by simp⟩

/-- Witness for C9: with only `q.ql` on disk the run produces exactly the
missing-file error notification trace. -/
theorem C9_witness :
    runRemoteQuery envD (some ⟨"q.ql"⟩) =
      (RunResult.normal,
       [Event.getOctokit, Event.getToken, Event.readFile "q.ql",
        Event.pathExists (reposFilePath "q.ql"),
        Event.errorMessage (missingFileMsg (reposFilePath "q.ql") "q.ql")]) := by
  exact (C9_missing_config_file envD ⟨"q.ql"⟩ "select 1"
    (by decide) (by decide) (by decide)).1

/-- Claim C10: when the configuration omits (or empties) the language and
CLI autodetection succeeds with an empty `byLanguage` map, `findLanguage`
returns no language without prompting and without any error message, and
`runRemoteQuery` then stops silently: its whole trace contains no
user-facing notification and no POST. -/
theorem C10_empty_autodetect_silent (env : Env) (u : Uri) (q c : String)
    (hql : jsEndsWith u.fsPath ".ql" = true)
    (hq : env.files u.fsPath = some q)
    (hc : env.files (reposFilePath u.fsPath) = some c)
    (hlang : jsFalsyStr (env.parseYaml c).language = true)
    (hres : env.resolveQueryByLanguage u.fsPath = Except.ok []) :
    findLanguage env (some u) =
      (none, [Event.resolveQueryByLanguage u.fsPath, Event.logMsg (detectedMsg none)]) ∧
    runRemoteQuery env (some u) =
      (RunResult.normal,
       baseTrace u ++ [Event.resolveQueryByLanguage u.fsPath,
         Event.logMsg (detectedMsg none)]) ∧
    (∀ e ∈ (runRemoteQuery env (some u)).2,
       isUserMessage e = false ∧ isPost e = false) := by
  have hfl : findLanguage env (some u) =
      (none, [Event.resolveQueryByLanguage u.fsPath, Event.logMsg (detectedMsg none)]) :=
    findLanguage_of_ok env (some u) u [] rfl hres
  have hlr : langResolution env u (env.parseYaml c).language = findLanguage env (some u) :=
    langResolution_falsy env u _ hlang
  have hfl2 : langResolution env u (env.parseYaml c).language =
      (none, [Event.resolveQueryByLanguage u.fsPath, Event.logMsg (detectedMsg none)]) := by
    rw [hlr, hfl]
  have heq : runRemoteQuery env (some u) =
      (RunResult.normal,
       baseTrace u ++ [Event.resolveQueryByLanguage u.fsPath,
         Event.logMsg (detectedMsg none)]) := by
    simp [runRemoteQuery, hql, hq, hc, hfl2, jsFalsyStr, baseTrace]
  refine ⟨hfl, heq, ?_⟩
  intro e he
  rw [heq] at he
  simp [baseTrace] at he
  rcases he with rfl | rfl | rfl | rfl | rfl | rfl | rfl <;>
    simp [isUserMessage, isPost]

/-- Witness for C10: in `envE` (empty autodetection result) the run ends
silently with the exact trace and no notification or POST. -/
theorem C10_witness :
    runRemoteQuery envE (some ⟨"q.ql"⟩) =
      (RunResult.normal,
       baseTrace ⟨"q.ql"⟩ ++ [Event.resolveQueryByLanguage "q.ql",
         Event.logMsg (detectedMsg none)]) := by
  exact (C10_empty_autodetect_silent envE ⟨"q.ql"⟩ "select 1" "cfg"
    (by decide) (by decide) (by decide) (by decide) rfl).2.1
